import Mathlib

/-!
Shallow embedding of the oxipaint pixel-data engine.

The Rust source is embedded as follows:
* `Vec<u8>` pixel buffers become `List ℕ` (one entry per byte; byte values
  are never arithmetically combined, so no modular wrap is needed).
* `f64` coordinate arithmetic becomes exact arithmetic over `ℚ`.  The only
  `f64` operation without an exact rational counterpart is `hypot`
  (a square root); it is embedded as an exact rational square root that is
  defined exactly when the root is rational, which covers every concrete
  input evaluated in the theorems below.  `f64::round` (ties away from
  zero), the saturating `f64 as u32` cast and the wrapping `i64 as u32`
  cast are modelled explicitly.
* Rust panics (failed `assert!`, `unreachable!`) in the line rasterizer are
  modelled with `Except String`; elsewhere the panicking index accesses are
  guarded by the invariants carried as hypotheses, and are embedded with
  the total `List.set`/`List.getD` operations, which agree with the source
  on all in-bounds accesses.
* `&mut self` methods become state-passing functions returning the new
  state (paired with the original return value where there is one).
* The `while` loops of `HardLine::draw` are embedded as fuel-indexed
  structural recursion; the fuel is an upper bound on the iteration count
  chosen large enough in every theorem, and the loops stop by their own
  exit condition before the fuel runs out on all inputs considered.
-/

/-- 2D point, specialised to rational coordinates (source: `Point<f64>` in
geometry.rs). -/
structure Point where
  x : ℚ
  y : ℚ
  deriving DecidableEq, Repr

/-- Source: `Point::map` (geometry.rs), specialised to `ℚ → ℚ`. -/
def Point.map (p : Point) (func : ℚ → ℚ) : Point :=
  ⟨func p.x, func p.y⟩

/-- Source: `Point::zipmap` (geometry.rs), specialised to rational points. -/
def Point.zipmap (p : Point) (attached : ℚ × ℚ) (func : ℚ → ℚ → ℚ) : Point :=
  ⟨func p.x attached.1, func p.y attached.2⟩

/-- Source: `enum Scale { Times(u32) }` (geometry.rs). -/
inductive Scale where
  | Times (n : ℕ)
  deriving DecidableEq, Repr

/-- Source: `Scale::apply` (multiplication by the factor), at type `ℚ`. -/
def Scale.apply (s : Scale) (num : ℚ) : ℚ :=
  match s with
  | .Times n => num * (n : ℚ)

/-- Source: `Scale::unapply` (division by the factor), at type `ℚ`. -/
def Scale.unapply (s : Scale) (num : ℚ) : ℚ :=
  match s with
  | .Times n => num / (n : ℚ)

/-- Source: `sdl2::pixels::Color` as used by canvas.rs: four 8-bit
channels.  Channel values are bytes (`u8`); the embedding stores them as
`ℕ` and never computes on them, only moves them around. -/
structure Color where
  r : ℕ
  g : ℕ
  b : ℕ
  a : ℕ
  deriving DecidableEq, Repr

/-- Source: `struct SparsePixelDelta` (history.rs): `index` is a flat
pixel index, not a byte offset. -/
structure SparsePixelDelta where
  index : ℕ
  before : Color
  after : Color
  deriving DecidableEq, Repr

/-- Source: `enum Diff { Sparse(Vec<SparsePixelDelta>) }` (history.rs). -/
inductive Diff where
  | Sparse (deltas : List SparsePixelDelta)
  deriving DecidableEq, Repr

/-- Source: `enum DiffDirection` (history.rs). -/
inductive DiffDirection where
  | Normal
  | Reverse
  deriving DecidableEq, Repr

/-- Source: `struct History { diffs: Vec<Diff>, cursor: usize }`
(history.rs). -/
structure History where
  diffs : List Diff
  cursor : ℕ
  deriving DecidableEq, Repr

/-- Source: `History::new` (history.rs). -/
def History.new : History := ⟨[], 0⟩

/-- Source: `History::undo` (history.rs): if `cursor == 0` return `None`,
else decrement the cursor and return `diffs[cursor]`.  The indexing cannot
be out of bounds under the `cursor <= diffs.len()` invariant asserted by
`consistency_check`; the embedding uses `getD` with an arbitrary default
at the unreachable spot. -/
def History.undo (h : History) : Option Diff × History :=
  if h.cursor = 0 then (none, h)
  else (some (h.diffs.getD (h.cursor - 1) (Diff.Sparse [])), ⟨h.diffs, h.cursor - 1⟩)

/-- Source: `History::redo` (history.rs): read `diffs.get(cursor)`; on
`Some` also increment the cursor. -/
def History.redo (h : History) : Option Diff × History :=
  match h.diffs[h.cursor]? with
  | some d => (some d, ⟨h.diffs, h.cursor + 1⟩)
  | none => (none, h)

/-- Source: `History::record` (history.rs): `resize_with(cursor, panic)`
truncates `diffs` to length `cursor` (it would panic rather than grow,
which cannot happen under the asserted `cursor <= diffs.len()` invariant;
`List.take` agrees with it on that domain), then pushes the new diff and
increments the cursor. -/
def History.record (h : History) (diff : Diff) : History :=
  ⟨h.diffs.take h.cursor ++ [diff], h.cursor + 1⟩

/-- Source: `struct Canvas { data: Vec<u8>, width: u32, height: u32 }`
(canvas.rs).  `Canvas::BPP = 4` appears as the literal `4` below. -/
structure Canvas where
  data : List ℕ
  width : ℕ
  height : ℕ
  deriving DecidableEq, Repr

/-- Source: `Canvas::new` (canvas.rs): a buffer of `width*height*BPP`
bytes, every byte 255. -/
def Canvas.new (width height : ℕ) : Canvas :=
  ⟨List.replicate (width * height * 4) 255, width, height⟩

/-- Source: `Canvas::area` (canvas.rs). -/
def Canvas.area (c : Canvas) : ℕ := c.width * c.height

/-- Source: `Canvas::calc_offset` (canvas.rs): `None` when `x >= width`
or `y >= height`, else the byte offset `(y*width + x) * BPP`. -/
def Canvas.calc_offset (c : Canvas) (x y : ℕ) : Option ℕ :=
  if x ≥ c.width ∨ y ≥ c.height then none
  else some ((y * c.width + x) * 4)

/-- The four-byte subslice `data[offset .. offset+4]` read by the source
(total: it yields fewer than four bytes only out of bounds, where the
source would panic and the invariant-guarded theorems never go). -/
def slice4 (data : List ℕ) (offset : ℕ) : List ℕ :=
  (data.drop offset).take 4

/-- Source: `Canvas::color_from_slice` (canvas.rs): byte 0 is blue,
byte 1 green, byte 2 red, byte 3 alpha. -/
def Canvas.color_from_slice (slice : List ℕ) : Color :=
  { b := slice.getD 0 0, g := slice.getD 1 0, r := slice.getD 2 0, a := slice.getD 3 0 }

/-- Source: `Canvas::color_to_slice` (canvas.rs): the four byte stores
`slice[0]=b; slice[1]=g; slice[2]=r; slice[3]=a` into the slice starting
at `offset`. -/
def Canvas.color_to_slice (color : Color) (data : List ℕ) (offset : ℕ) : List ℕ :=
  (((data.set offset color.b).set (offset + 1) color.g).set
    (offset + 2) color.r).set (offset + 3) color.a

/-- Source: `Canvas::try_get_at` (canvas.rs). -/
def Canvas.try_get_at (c : Canvas) (x y : ℕ) : Option Color :=
  (c.calc_offset x y).map fun offset => Canvas.color_from_slice (slice4 c.data offset)

/-- Source: `Canvas::try_set_at` (canvas.rs); the mutated canvas is
returned. -/
def Canvas.try_set_at (c : Canvas) (x y : ℕ) (color : Color) : Option Canvas :=
  (c.calc_offset x y).map fun offset =>
    { c with data := Canvas.color_to_slice color c.data offset }

/-- Source: `Canvas::create_shadow_data` (canvas.rs): a full copy of the
byte buffer. -/
def Canvas.create_shadow_data (c : Canvas) : List ℕ := c.data

/-- Source: `Canvas::update_shadow_data` (canvas.rs): clear the shadow
vector and extend it from the live data, i.e. replace it with a copy. -/
def Canvas.update_shadow_data (c : Canvas) : List ℕ := c.data

/-- The delta list built by the loop of `Canvas::compare_shadow_data`
(canvas.rs): for each pixel `index` in `0..area`, decode the colors at
bytes `index*4..index*4+4` of the shadow (`before`) and of the live data
(`after`) and keep the pixels whose color changed, in ascending index
order. -/
def compareDeltas (area : ℕ) (data shadow_data : List ℕ) : List SparsePixelDelta :=
  (List.range area).filterMap fun index =>
    let before := Canvas.color_from_slice (slice4 shadow_data (index * 4))
    let after := Canvas.color_from_slice (slice4 data (index * 4))
    if before = after then none else some ⟨index, before, after⟩

/-- Source: `Canvas::compare_shadow_data` (canvas.rs). -/
def Canvas.compare_shadow_data (c : Canvas) (shadow_data : List ℕ) : Diff :=
  Diff.Sparse (compareDeltas c.area c.data shadow_data)

/-- The color written by `Canvas::apply_diff` for one delta: `after` in
the `Normal` direction, `before` in `Reverse` (canvas.rs). -/
def DiffDirection.pick (direction : DiffDirection) (delta : SparsePixelDelta) : Color :=
  match direction with
  | .Normal => delta.after
  | .Reverse => delta.before

/-- The loop of `Canvas::apply_diff` (canvas.rs): write the picked color
of each delta at byte offset `delta.index * 4`, in order. -/
def applyDeltas (pick : SparsePixelDelta → Color) (data : List ℕ)
    (deltas : List SparsePixelDelta) : List ℕ :=
  deltas.foldl (fun d delta => Canvas.color_to_slice (pick delta) d (delta.index * 4)) data

/-- Source: `Canvas::apply_diff` (canvas.rs). -/
def Canvas.apply_diff (c : Canvas) (diff : Diff) (direction : DiffDirection) : Canvas :=
  match diff with
  | .Sparse deltas => { c with data := applyDeltas direction.pick c.data deltas }

/-- Source: `Canvas::contains_point` (canvas.rs). -/
def Canvas.contains_point (c : Canvas) (point : Point) : Prop :=
  point.x ≥ 0 ∧ point.y ≥ 0 ∧ point.x < (c.width : ℚ) ∧ point.y < (c.height : ℚ)

/-- Source: `enum TimeMachineError` (editor.rs). -/
inductive TimeMachineError where
  | TransactionInProgress
  | AlreadyAtTimeEdge
  deriving DecidableEq, Repr

/-- Source: `struct Editor` (editor.rs); the `SdlCanvas` handle is GUI
glue and carries no pixel-engine state, so it is not modelled. -/
structure Editor where
  canvas : Canvas
  shadow_data : List ℕ
  history : History
  in_transaction : Bool
  scale : Scale
  center : Point
  deriving DecidableEq, Repr

/-- Source: `Editor::new` (editor.rs). -/
def Editor.new (width height : ℕ) : Editor :=
  let canvas := Canvas.new width height
  { canvas := canvas
    shadow_data := canvas.create_shadow_data
    history := History.new
    in_transaction := false
    scale := Scale.Times 1
    center := (Point.mk (width : ℚ) (height : ℚ)).map (fun x => x / 2) }

/-- Source: `Editor::scroll` (editor.rs).  NOTE: the source reads
`self.canvas.width()` for BOTH clamp limits (the local named `height` is
assigned from `width()`); the embedding reproduces that. -/
def Editor.scroll (e : Editor) (delta_x delta_y : ℚ) : Editor :=
  let width : ℚ := (e.canvas.width : ℚ)
  let height : ℚ := (e.canvas.width : ℚ)
  { e with
      center :=
        (e.center.zipmap (delta_x, delta_y) (fun t dt => t + dt)).zipmap
          (width, height) (fun t lim => min (max t 0) lim) }

/-- Source: `Editor::recalc_scale_up` (editor.rs). -/
def Editor.recalc_scale_up (orig_scale : Scale) : Option Scale :=
  match orig_scale with
  | .Times n => some (.Times (n + 1))

/-- Source: `Editor::recalc_scale_down` (editor.rs).  `Times(0)` is
`unreachable!()` in the source (the scale invariant keeps the factor at
least 1); the embedding returns `none` there, a value the theorems never
rely on. -/
def Editor.recalc_scale_down (orig_scale : Scale) : Option Scale :=
  match orig_scale with
  | .Times 0 => none
  | .Times 1 => none
  | .Times (n + 2) => some (.Times (n + 1))

/-- Source: `Editor::rescale` (editor.rs): move the center so that the
stationary point keeps its screen position, then clamp each axis into
`[0, canvas dimension]` (this one, unlike `scroll`, uses `height()` for
the y limit). -/
def Editor.rescale (e : Editor) (new_scale : Scale) (stationary_point : Point) : Editor :=
  let orig_scale := e.scale
  let orig_center := e.center
  let orig_stationary_point_offset_x := stationary_point.x - orig_center.x
  let orig_stationary_point_offset_y := stationary_point.y - orig_center.y
  let new_stationary_point_offset_x :=
    orig_scale.apply (new_scale.unapply orig_stationary_point_offset_x)
  let new_stationary_point_offset_y :=
    orig_scale.apply (new_scale.unapply orig_stationary_point_offset_y)
  let new_center :=
    (Point.mk (stationary_point.x - new_stationary_point_offset_x)
        (stationary_point.y - new_stationary_point_offset_y)).zipmap
      ((e.canvas.width : ℚ), (e.canvas.height : ℚ))
      (fun coord lim => min (max coord 0) lim)
  { e with center := new_center, scale := new_scale }

/-- Source: `Editor::scale_up` (editor.rs). -/
def Editor.scale_up (e : Editor) (stationary_point : Point) : Option Scale × Editor :=
  match Editor.recalc_scale_up e.scale with
  | some s => (some s, e.rescale s stationary_point)
  | none => (none, e)

/-- Source: `Editor::scale_down` (editor.rs). -/
def Editor.scale_down (e : Editor) (stationary_point : Point) : Option Scale × Editor :=
  match Editor.recalc_scale_down e.scale with
  | some s => (some s, e.rescale s stationary_point)
  | none => (none, e)

/-- Source: `Editor::undo` (editor.rs): refuse while a transaction is in
progress; else ask the history for a diff and apply it in `Reverse`
direction, or fail with `AlreadyAtTimeEdge`.  The second component is the
editor state after the call (the source mutates `self`). -/
def Editor.undo (e : Editor) : Except TimeMachineError Unit × Editor :=
  if e.in_transaction then (.error .TransactionInProgress, e)
  else
    match e.history.undo with
    | (some d, h2) =>
        (.ok (), { e with history := h2, canvas := e.canvas.apply_diff d .Reverse })
    | (none, h2) => (.error .AlreadyAtTimeEdge, { e with history := h2 })

/-- Source: `Editor::redo` (editor.rs): like `undo` with the `Normal`
direction. -/
def Editor.redo (e : Editor) : Except TimeMachineError Unit × Editor :=
  if e.in_transaction then (.error .TransactionInProgress, e)
  else
    match e.history.redo with
    | (some d, h2) =>
        (.ok (), { e with history := h2, canvas := e.canvas.apply_diff d .Normal })
    | (none, h2) => (.error .AlreadyAtTimeEdge, { e with history := h2 })

/-- Source: `Editor::begin` (editor.rs): snapshot the live buffer into the
shadow buffer and mark the transaction open. -/
def Editor.begin (e : Editor) : Editor :=
  { e with shadow_data := e.canvas.update_shadow_data, in_transaction := true }

/-- Source: `Editor::end` (editor.rs; `end` is reserved in Lean): diff the
live buffer against the shadow, record the diff, mark the transaction
closed. -/
def Editor.end_transaction (e : Editor) : Editor :=
  { e with
      history := e.history.record (e.canvas.compare_shadow_data e.shadow_data)
      in_transaction := false }

/-- One bounds-checked pixel write request, as issued by a drawing tool
between `begin` and `end` (the tools write through `Canvas::try_set_at`
and ignore the `Option` result). -/
structure PixelWrite where
  x : ℕ
  y : ℕ
  color : Color
  deriving DecidableEq, Repr

/-- Apply a sequence of bounds-checked pixel writes; out-of-bounds writes
are no-ops, exactly as a `try_set_at` whose `None` result is dropped. -/
def Canvas.apply_writes (c : Canvas) (writes : List PixelWrite) : Canvas :=
  writes.foldl (fun c w => (c.try_set_at w.x w.y w.color).getD c) c

/-- One complete transaction: `begin()`, a sequence of pixel writes,
`end()`. -/
def Editor.run_transaction (e : Editor) (writes : List PixelWrite) : Editor :=
  Editor.end_transaction
    { e.begin with canvas := e.begin.canvas.apply_writes writes }

/-- The editor state after `Editor::undo` (discarding the result value). -/
def Editor.undo_state (e : Editor) : Editor := (e.undo).2

/-- The editor state after `Editor::redo` (discarding the result value). -/
def Editor.redo_state (e : Editor) : Editor := (e.redo).2

/-- `n` successive calls of `Editor::undo`. -/
def undoN (n : ℕ) (e : Editor) : Editor := Editor.undo_state^[n] e

/-- `n` successive calls of `Editor::redo`. -/
def redoN (n : ℕ) (e : Editor) : Editor := Editor.redo_state^[n] e

/-- Integer square root by downward search (kernel-reducible helper for
the exact rational square root below). -/
def natSqrtAux (n : ℕ) : ℕ → ℕ
  | 0 => 0
  | k + 1 => if (k + 1) * (k + 1) ≤ n then k + 1 else natSqrtAux n k

/-- Largest `k` with `k*k ≤ n`. -/
def natSqrt (n : ℕ) : ℕ := natSqrtAux n n

/-- Exact rational square root: `some s` with `s*s = q` when such a
rational exists, else `none`.  This is the embedding of `f64::hypot`'s
square root; it is exact precisely on the inputs the theorems below
evaluate. -/
def ratSqrt (q : ℚ) : Option ℚ :=
  if q < 0 then none
  else
    let sn := natSqrt q.num.toNat
    let sd := natSqrt q.den
    if sn * sn = q.num.toNat ∧ sd * sd = q.den then some ((sn : ℚ) / (sd : ℚ))
    else none

/-- Source: `struct HardLine { a, b, thickness }` (draw_primitives.rs). -/
structure HardLine where
  a : Point
  b : Point
  thickness : ℚ
  deriving DecidableEq, Repr

/-- Source: `fn sort2` (draw_primitives.rs): swap when `a > b`. -/
def sort2 (a b : ℚ) : ℚ × ℚ :=
  if a > b then (b, a) else (a, b)

/-- Stable insertion of a point into a list sorted by `y` (the new point
goes after every element whose `y` is not greater). -/
def insertByY (p : Point) : List Point → List Point
  | [] => [p]
  | q :: rest => if q.y ≤ p.y then q :: insertByY p rest else p :: q :: rest

/-- Stable sort by `y`; embeds the source's stable
`points.sort_by(|p, q| p.y.partial_cmp(&q.y).unwrap())`
(rational `y`s are always comparable, so the `unwrap` cannot fail). -/
def sortByY (points : List Point) : List Point :=
  points.foldl (fun acc p => insertByY p acc) []

/-- Source: `HardLine::scanline_points` (draw_primitives.rs): the four
corners of the thick line sorted by `y`.  The failed
`assert!(scale.abs() > 1e-9)` panic is an `Except.error`; `1e-9` is the
exact rational `1/1000000000`. -/
def HardLine.scanline_points (l : HardLine) :
    Except String (Point × Point × Point × Point) :=
  let normal_x := l.b.y - l.a.y
  let normal_y := l.a.x - l.b.x
  match ratSqrt (normal_x * normal_x + normal_y * normal_y) with
  | none => .error "hypot value is irrational"
  | some scale =>
    if |scale| > 1 / 1000000000 then
      let nx := normal_x / scale
      let ny := normal_y / scale
      let p1 : Point := ⟨l.a.x + nx * l.thickness / 2, l.a.y + ny * l.thickness / 2⟩
      let p2 : Point := ⟨l.a.x - nx * l.thickness / 2, l.a.y - ny * l.thickness / 2⟩
      let p3 : Point := ⟨l.b.x + nx * l.thickness / 2, l.b.y + ny * l.thickness / 2⟩
      let p4 : Point := ⟨l.b.x - nx * l.thickness / 2, l.b.y - ny * l.thickness / 2⟩
      match sortByY [p1, p2, p3, p4] with
      | [q1, q2, q3, q4] => .ok (q1, q2, q3, q4)
      | _ => .error "unreachable"
    else .error "assertion failed: scale.abs() > 1e-9"

/-- Rust `f64::round`: nearest integer, ties rounded away from zero. -/
def roundRust (q : ℚ) : ℤ :=
  if q ≥ 0 then ⌊q + 1 / 2⌋ else -⌊-q + 1 / 2⌋

/-- Rust `expr as u32` on a float value (here already rounded to an
integer): saturating conversion. -/
def u32_of_f64 (z : ℤ) : ℕ :=
  if z < 0 then 0 else if z > 4294967295 then 4294967295 else z.toNat

/-- Rust `expr as u32` on an `i64`: wrapping (truncating) conversion. -/
def u32_of_i64 (z : ℤ) : ℕ := (z % 4294967296).toNat

/-- Rust `lo..=hi` over `u32`, as the list of its elements. -/
def u32RangeIncl (lo hi : ℕ) : List ℕ := List.range' lo (hi + 1 - lo)

/-- Rust `lo..hi` over `u32`, as the list of its elements. -/
def u32RangeExcl (lo hi : ℕ) : List ℕ := List.range' lo (hi - lo)

/-- First `while` loop of `HardLine::draw` (draw_primitives.rs): rows from
`floor(top.y)` up to `topmid.y`, with the flat-top `break`.  Returns the
emitted `put_pixel(x, y as u32)` arguments in order and the final `y`. -/
def drawLoop1 (top topmid bottommid : Point) : ℕ → ℤ → List (ℕ × ℕ) × ℤ
  | 0, y => ([], y)
  | fuel + 1, y =>
    if (y : ℚ) + 1 / 1000000000 < topmid.y then
      if |topmid.y - top.y| < 1 / 1000000000 then ([], y)
      else
        let dy := (y : ℚ) - top.y + 1 / 2
        let k_topmid := dy / (topmid.y - top.y)
        let k_bottommid := dy / (bottommid.y - top.y)
        let dx_topmid := k_topmid * (topmid.x - top.x)
        let dx_bottommid := k_bottommid * (bottommid.x - top.x)
        let x_topmid := top.x + dx_topmid
        let x_bottommid := top.x + dx_bottommid
        let lr := sort2 x_topmid x_bottommid
        let x_left := u32_of_f64 (roundRust (lr.1 - 1 / 1000000000))
        let x_right := u32_of_f64 (roundRust (lr.2 + 1 / 1000000000))
        let rest := drawLoop1 top topmid bottommid fuel (y + 1)
        (((u32RangeIncl x_left x_right).map fun x => (x, u32_of_i64 y)) ++ rest.1, rest.2)
    else ([], y)

/-- Second `while` loop of `HardLine::draw`: rows up to `bottommid.y`,
with the exclusive column range `x_left..x_right`.  NOTE the source
divides by `top.x - topmid.x` in `distance_x`; in `ℚ` a division by zero
yields 0 where `f64` would give an infinity — the concrete inputs
evaluated below keep that divisor nonzero. -/
def drawLoop2 (top topmid bottommid : Point) : ℕ → ℤ → List (ℕ × ℕ) × ℤ
  | 0, y => ([], y)
  | fuel + 1, y =>
    if (y : ℚ) + 1 / 2 + 1 / 1000000000 < bottommid.y then
      let dy := (y : ℚ) - top.y + 1 / 2
      let k_bottommid := dy / (bottommid.y - top.y)
      let dx_bottommid := k_bottommid * (bottommid.x - top.x)
      let x_bottommid := top.x + dx_bottommid
      let distance_x := (top.y - topmid.y) ^ 2 / (top.x - topmid.x) + top.x - topmid.x
      let x_topmid := x_bottommid - distance_x
      let lr := sort2 x_topmid x_bottommid
      let x_left := u32_of_f64 (roundRust (lr.1 - 1 / 1000000000))
      let x_right := u32_of_f64 (roundRust (lr.2 + 1 / 1000000000))
      let rest := drawLoop2 top topmid bottommid fuel (y + 1)
      (((u32RangeExcl x_left x_right).map fun x => (x, u32_of_i64 y)) ++ rest.1, rest.2)
    else ([], y)

/-- Third `while` loop of `HardLine::draw`: rows up to `bottom.y`,
interpolating from the bottom corner. -/
def drawLoop3 (topmid bottommid bottom : Point) : ℕ → ℤ → List (ℕ × ℕ)
  | 0, _ => []
  | fuel + 1, y =>
    if (y : ℚ) + 1 / 1000000000 < bottom.y then
      let dy := bottom.y - (y : ℚ) - 1 / 2
      let k_topmid := dy / (bottom.y - topmid.y)
      let k_bottommid := dy / (bottom.y - bottommid.y)
      let dx_topmid := k_topmid * (topmid.x - bottom.x)
      let dx_bottommid := k_bottommid * (bottommid.x - bottom.x)
      let x_topmid := bottom.x + dx_topmid
      let x_bottommid := bottom.x + dx_bottommid
      let lr := sort2 x_topmid x_bottommid
      let x_left := u32_of_f64 (roundRust (lr.1 - 1 / 1000000000))
      let x_right := u32_of_f64 (roundRust (lr.2 + 1 / 1000000000))
      ((u32RangeIncl x_left x_right).map fun x => (x, u32_of_i64 y)) ++
        drawLoop3 topmid bottommid bottom fuel (y + 1)
    else []

/-- Source: `HardLine::draw` (draw_primitives.rs): the three scanline
loops run in sequence, threading `y`; the result collects every
`put_pixel(x, y)` callback invocation in order. -/
def HardLine.draw (l : HardLine) (fuel : ℕ) : Except String (List (ℕ × ℕ)) :=
  match l.scanline_points with
  | .error msg => .error msg
  | .ok (top, topmid, bottommid, bottom) =>
    let y0 : ℤ := ⌊top.y⌋
    let r1 := drawLoop1 top topmid bottommid fuel y0
    let r2 := drawLoop2 top topmid bottommid fuel r1.2
    let r3 := drawLoop3 topmid bottommid bottom fuel r2.2
    .ok (r1.1 ++ r2.1 ++ r3)

/-! ### Byte-buffer lemmas -/

theorem length_color_to_slice (color : Color) (data : List ℕ) (offset : ℕ) :
    (Canvas.color_to_slice color data offset).length = data.length := by
  simp [Canvas.color_to_slice]

theorem getElem?_color_to_slice (color : Color) (data : List ℕ) (offset j : ℕ)
    (hin : offset + 4 ≤ data.length) :
    (Canvas.color_to_slice color data offset)[j]? =
      if j = offset then some color.b
      else if j = offset + 1 then some color.g
      else if j = offset + 2 then some color.r
      else if j = offset + 3 then some color.a
      else data[j]? := by
  simp only [Canvas.color_to_slice, List.getElem?_set, List.length_set]
  split_ifs <;> first | rfl | omega

theorem getElem?_color_to_slice_of_ne (color : Color) (data : List ℕ) (offset j : ℕ)
    (h : j < offset ∨ offset + 4 ≤ j) :
    (Canvas.color_to_slice color data offset)[j]? = data[j]? := by
  simp only [Canvas.color_to_slice, List.getElem?_set, List.length_set]
  split_ifs <;> first | rfl | omega

theorem slice4_getD (data : List ℕ) (offset k : ℕ) (hk : k < 4) :
    (slice4 data offset).getD k 0 = data.getD (offset + k) 0 := by
  simp [slice4, List.getD_eq_getElem?_getD, List.getElem?_take, hk, List.getElem?_drop]

theorem color_from_slice_slice4 (data : List ℕ) (offset : ℕ) :
    Canvas.color_from_slice (slice4 data offset) =
      { b := data.getD offset 0, g := data.getD (offset + 1) 0,
        r := data.getD (offset + 2) 0, a := data.getD (offset + 3) 0 } := by
  have h0 := slice4_getD data offset 0 (by omega)
  have h1 := slice4_getD data offset 1 (by omega)
  have h2 := slice4_getD data offset 2 (by omega)
  have h3 := slice4_getD data offset 3 (by omega)
  simp only [Canvas.color_from_slice, h0, h1, h2, h3, Nat.add_zero]

theorem length_applyDeltas (pick : SparsePixelDelta → Color) (data : List ℕ)
    (deltas : List SparsePixelDelta) :
    (applyDeltas pick data deltas).length = data.length := by
  induction deltas generalizing data with
  | nil => rfl
  | cons d tl ih =>
      simp only [applyDeltas, List.foldl_cons] at ih ⊢
      rw [ih, length_color_to_slice]

theorem applyDeltas_getElem?_notmem (pick : SparsePixelDelta → Color) (data : List ℕ)
    (deltas : List SparsePixelDelta) (j : ℕ)
    (h : ∀ delta ∈ deltas, j < delta.index * 4 ∨ delta.index * 4 + 4 ≤ j) :
    (applyDeltas pick data deltas)[j]? = data[j]? := by
  induction deltas generalizing data with
  | nil => rfl
  | cons d tl ih =>
      simp only [applyDeltas, List.foldl_cons] at ih ⊢
      rw [ih _ (fun delta hm => h delta (List.mem_cons_of_mem _ hm)),
        getElem?_color_to_slice_of_ne _ _ _ _ (h d (List.mem_cons_self d tl))]

/-- The four bytes that `color_to_slice` stores, in buffer order. -/
def colorBytes (c : Color) : List ℕ := [c.b, c.g, c.r, c.a]

theorem applyDeltas_getElem?_mem (pick : SparsePixelDelta → Color) (data : List ℕ)
    (deltas : List SparsePixelDelta) (delta0 : SparsePixelDelta) (j : ℕ)
    (hmem : delta0 ∈ deltas)
    (hj1 : delta0.index * 4 ≤ j) (hj2 : j < delta0.index * 4 + 4)
    (hdist : deltas.Pairwise (fun d1 d2 => d1.index ≠ d2.index))
    (hin : delta0.index * 4 + 4 ≤ data.length) :
    (applyDeltas pick data deltas)[j]? =
      (colorBytes (pick delta0))[j - delta0.index * 4]? := by
  induction deltas generalizing data with
  | nil => cases hmem
  | cons d tl ih =>
      simp only [applyDeltas, List.foldl_cons] at ih ⊢
      rcases List.mem_cons.mp hmem with rfl | hmem2
      · have hne : ∀ delta ∈ tl, j < delta.index * 4 ∨ delta.index * 4 + 4 ≤ j := by
          intro delta hd
          have : delta0.index ≠ delta.index := (List.pairwise_cons.mp hdist).1 delta hd
          omega
        rw [show (tl.foldl (fun d delta => Canvas.color_to_slice (pick delta) d (delta.index * 4))
              (Canvas.color_to_slice (pick delta0) data (delta0.index * 4))) =
            applyDeltas pick (Canvas.color_to_slice (pick delta0) data (delta0.index * 4)) tl
            from rfl,
          applyDeltas_getElem?_notmem _ _ _ _ hne,
          getElem?_color_to_slice _ _ _ _ hin]
        have hlt : j < data.length := by omega
        rcases show j = delta0.index * 4 ∨ j = delta0.index * 4 + 1 ∨ j = delta0.index * 4 + 2 ∨
            j = delta0.index * 4 + 3 from by omega with h | h | h | h <;>
          subst h <;> simp [colorBytes]
      · exact ih _ hmem2 (List.pairwise_cons.mp hdist).2
          (by rw [length_color_to_slice]; exact hin)

/-! ### compareDeltas characterisation -/

/-- The per-index option function underlying `compareDeltas`. -/
def compareAt (data shadow_data : List ℕ) (index : ℕ) : Option SparsePixelDelta :=
  let before := Canvas.color_from_slice (slice4 shadow_data (index * 4))
  let after := Canvas.color_from_slice (slice4 data (index * 4))
  if before = after then none else some ⟨index, before, after⟩

theorem compareDeltas_eq_filterMap (area : ℕ) (data shadow_data : List ℕ) :
    compareDeltas area data shadow_data =
      (List.range area).filterMap (compareAt data shadow_data) := rfl

theorem compareAt_index (data shadow_data : List ℕ) (index : ℕ)
    (delta : SparsePixelDelta) (h : compareAt data shadow_data index = some delta) :
    delta.index = index := by
  simp only [compareAt] at h
  split_ifs at h <;> cases h <;> rfl

theorem mem_compareDeltas (area : ℕ) (data shadow_data : List ℕ)
    (delta : SparsePixelDelta) :
    delta ∈ compareDeltas area data shadow_data ↔
      delta.index < area ∧ compareAt data shadow_data delta.index = some delta := by
  rw [compareDeltas_eq_filterMap]
  constructor
  · intro h
    obtain ⟨i, hi, heq⟩ := List.mem_filterMap.mp h
    have := compareAt_index _ _ _ _ heq
    subst this
    exact ⟨List.mem_range.mp hi, heq⟩
  · intro ⟨h1, h2⟩
    exact List.mem_filterMap.mpr ⟨delta.index, List.mem_range.mpr h1, h2⟩

theorem compareDeltas_pairwise (area : ℕ) (data shadow_data : List ℕ) :
    (compareDeltas area data shadow_data).Pairwise
      (fun d1 d2 => d1.index < d2.index) := by
  rw [compareDeltas_eq_filterMap]
  have : ∀ l : List ℕ, l.Pairwise (· < ·) →
      (l.filterMap (compareAt data shadow_data)).Pairwise
        (fun d1 d2 => d1.index < d2.index) := by
    intro l hl
    induction l with
    | nil => simp
    | cons i tl ih =>
        obtain ⟨hhead, htail⟩ := List.pairwise_cons.mp hl
        simp only [List.filterMap_cons]
        cases hc : compareAt data shadow_data i with
        | none => exact ih htail
        | some d =>
            refine List.pairwise_cons.mpr ⟨?_, ih htail⟩
            intro d2 hd2
            obtain ⟨i2, hi2, heq2⟩ := List.mem_filterMap.mp hd2
            rw [compareAt_index _ _ _ _ hc, compareAt_index _ _ _ _ heq2]
            exact hhead i2 hi2
  exact this _ (List.pairwise_lt_range area)

theorem compareDeltas_pairwise_ne (area : ℕ) (data shadow_data : List ℕ) :
    (compareDeltas area data shadow_data).Pairwise
      (fun d1 d2 => d1.index ≠ d2.index) :=
  (compareDeltas_pairwise area data shadow_data).imp (fun h => Nat.ne_of_lt h)

theorem compareDeltas_index_lt (area : ℕ) (data shadow_data : List ℕ)
    (delta : SparsePixelDelta) (h : delta ∈ compareDeltas area data shadow_data) :
    delta.index < area :=
  ((mem_compareDeltas area data shadow_data delta).mp h).1

/-! ### Diff application restores the compared buffers -/

theorem getD_eq_of_color_eq (u v : List ℕ) (offset : ℕ)
    (h : Canvas.color_from_slice (slice4 u offset) =
      Canvas.color_from_slice (slice4 v offset)) :
    ∀ k < 4, u.getD (offset + k) 0 = v.getD (offset + k) 0 := by
  rw [color_from_slice_slice4, color_from_slice_slice4, Color.mk.injEq] at h
  intro k hk
  rcases show k = 0 ∨ k = 1 ∨ k = 2 ∨ k = 3 from by omega with rfl | rfl | rfl | rfl
  · simpa using h.2.2.1
  · exact h.2.1
  · exact h.1
  · exact h.2.2.2

theorem applyDeltas_compare_reverse (area : ℕ) (cur shadow : List ℕ)
    (hcur : cur.length = area * 4) (hsh : shadow.length = area * 4) :
    applyDeltas (fun delta => delta.before) cur (compareDeltas area cur shadow) = shadow := by
  apply List.ext_getElem?
  intro j
  by_cases hj : j < area * 4
  case neg =>
    rw [applyDeltas_getElem?_notmem, List.getElem?_eq_none (by omega),
      List.getElem?_eq_none (by omega)]
    intro delta hd
    have := compareDeltas_index_lt _ _ _ _ hd
    omega
  case pos =>
    obtain ⟨i, c, hc4, rfl⟩ : ∃ i c, c < 4 ∧ j = i * 4 + c :=
      ⟨j / 4, j % 4, by omega, by omega⟩
    have hiarea : i < area := by omega
    by_cases hch : Canvas.color_from_slice (slice4 shadow (i * 4)) =
        Canvas.color_from_slice (slice4 cur (i * 4))
    case pos =>
      -- pixel i is unchanged: no delta touches this byte
      have hnot : ∀ delta ∈ compareDeltas area cur shadow,
          i * 4 + c < delta.index * 4 ∨ delta.index * 4 + 4 ≤ i * 4 + c := by
        intro delta hd
        obtain ⟨hlt, hcmp⟩ := (mem_compareDeltas _ _ _ _).mp hd
        by_cases hdi : delta.index = i
        · rw [hdi] at hcmp
          simp only [compareAt, if_pos hch] at hcmp
          cases hcmp
        · omega
      rw [applyDeltas_getElem?_notmem _ _ _ _ hnot]
      have hb := getD_eq_of_color_eq shadow cur (i * 4) hch c hc4
      rw [List.getD_eq_getElem?_getD, List.getD_eq_getElem?_getD,
        List.getElem?_eq_getElem (show i * 4 + c < shadow.length by omega),
        List.getElem?_eq_getElem (show i * 4 + c < cur.length by omega)] at hb
      simp only [Option.getD_some] at hb
      have h1 : i * 4 + c < cur.length := by omega
      have h2 : i * 4 + c < shadow.length := by omega
      rw [List.getElem?_eq_getElem h1]
      rw [List.getElem?_eq_getElem h2]
      exact congrArg some hb.symm
    case neg =>
      -- pixel i changed: its delta writes the shadow bytes back
      have hmem : (⟨i, Canvas.color_from_slice (slice4 shadow (i * 4)),
          Canvas.color_from_slice (slice4 cur (i * 4))⟩ : SparsePixelDelta) ∈
            compareDeltas area cur shadow := by
        rw [mem_compareDeltas]
        exact ⟨hiarea, by simp only [compareAt, if_neg hch]⟩
      have hres := applyDeltas_getElem?_mem (fun delta => delta.before) cur _ _ (i * 4 + c)
        hmem (show i * 4 ≤ i * 4 + c from by omega) (show i * 4 + c < i * 4 + 4 from by omega)
        (compareDeltas_pairwise_ne _ _ _) (show i * 4 + 4 ≤ cur.length from by omega)
      rw [hres]
      show (colorBytes (Canvas.color_from_slice (slice4 shadow (i * 4))))[i * 4 + c - i * 4]? =
        shadow[i * 4 + c]?
      rw [color_from_slice_slice4, show i * 4 + c - i * 4 = c from by omega,
        List.getElem?_eq_getElem (show i * 4 + c < shadow.length by omega)]
      rcases show c = 0 ∨ c = 1 ∨ c = 2 ∨ c = 3 from by omega with rfl | rfl | rfl | rfl <;>
        simp only [colorBytes, List.getElem?_cons_zero, List.getElem?_cons_succ] <;>
        rw [List.getD_eq_getElem?_getD,
          List.getElem?_eq_getElem (by omega)] <;>
        simp

theorem applyDeltas_compare_normal (area : ℕ) (cur shadow : List ℕ)
    (hcur : cur.length = area * 4) (hsh : shadow.length = area * 4) :
    applyDeltas (fun delta => delta.after) shadow (compareDeltas area cur shadow) = cur := by
  apply List.ext_getElem?
  intro j
  by_cases hj : j < area * 4
  case neg =>
    rw [applyDeltas_getElem?_notmem, List.getElem?_eq_none (by omega),
      List.getElem?_eq_none (by omega)]
    intro delta hd
    have := compareDeltas_index_lt _ _ _ _ hd
    omega
  case pos =>
    obtain ⟨i, c, hc4, rfl⟩ : ∃ i c, c < 4 ∧ j = i * 4 + c :=
      ⟨j / 4, j % 4, by omega, by omega⟩
    have hiarea : i < area := by omega
    by_cases hch : Canvas.color_from_slice (slice4 shadow (i * 4)) =
        Canvas.color_from_slice (slice4 cur (i * 4))
    case pos =>
      have hnot : ∀ delta ∈ compareDeltas area cur shadow,
          i * 4 + c < delta.index * 4 ∨ delta.index * 4 + 4 ≤ i * 4 + c := by
        intro delta hd
        obtain ⟨hlt, hcmp⟩ := (mem_compareDeltas _ _ _ _).mp hd
        by_cases hdi : delta.index = i
        · rw [hdi] at hcmp
          simp only [compareAt, if_pos hch] at hcmp
          cases hcmp
        · omega
      rw [applyDeltas_getElem?_notmem _ _ _ _ hnot]
      have hb := getD_eq_of_color_eq shadow cur (i * 4) hch c hc4
      rw [List.getD_eq_getElem?_getD, List.getD_eq_getElem?_getD,
        List.getElem?_eq_getElem (show i * 4 + c < shadow.length by omega),
        List.getElem?_eq_getElem (show i * 4 + c < cur.length by omega)] at hb
      simp only [Option.getD_some] at hb
      have h1 : i * 4 + c < shadow.length := by omega
      have h2 : i * 4 + c < cur.length := by omega
      rw [List.getElem?_eq_getElem h1]
      rw [List.getElem?_eq_getElem h2]
      exact congrArg some hb
    case neg =>
      have hmem : (⟨i, Canvas.color_from_slice (slice4 shadow (i * 4)),
          Canvas.color_from_slice (slice4 cur (i * 4))⟩ : SparsePixelDelta) ∈
            compareDeltas area cur shadow := by
        rw [mem_compareDeltas]
        exact ⟨hiarea, by simp only [compareAt, if_neg hch]⟩
      have hres := applyDeltas_getElem?_mem (fun delta => delta.after) shadow _ _ (i * 4 + c)
        hmem (show i * 4 ≤ i * 4 + c from by omega) (show i * 4 + c < i * 4 + 4 from by omega)
        (compareDeltas_pairwise_ne _ _ _) (show i * 4 + 4 ≤ shadow.length from by omega)
      rw [hres]
      show (colorBytes (Canvas.color_from_slice (slice4 cur (i * 4))))[i * 4 + c - i * 4]? =
        cur[i * 4 + c]?
      rw [color_from_slice_slice4, show i * 4 + c - i * 4 = c from by omega,
        List.getElem?_eq_getElem (show i * 4 + c < cur.length by omega)]
      rcases show c = 0 ∨ c = 1 ∨ c = 2 ∨ c = 3 from by omega with rfl | rfl | rfl | rfl <;>
        simp only [colorBytes, List.getElem?_cons_zero, List.getElem?_cons_succ] <;>
        rw [List.getD_eq_getElem?_getD,
          List.getElem?_eq_getElem (by omega)] <;>
        simp

/-! ### Editor-level lemmas -/

theorem write_step_dims (c : Canvas) (w : PixelWrite) :
    ((c.try_set_at w.x w.y w.color).getD c).width = c.width ∧
    ((c.try_set_at w.x w.y w.color).getD c).height = c.height ∧
    ((c.try_set_at w.x w.y w.color).getD c).data.length = c.data.length := by
  simp only [Canvas.try_set_at, Canvas.calc_offset]
  split_ifs <;> simp [length_color_to_slice]

theorem apply_writes_dims (c : Canvas) (ws : List PixelWrite) :
    (c.apply_writes ws).width = c.width ∧ (c.apply_writes ws).height = c.height ∧
    (c.apply_writes ws).data.length = c.data.length := by
  induction ws generalizing c with
  | nil => exact ⟨rfl, rfl, rfl⟩
  | cons w tl ih =>
      have hstep := write_step_dims c w
      have htl := ih ((c.try_set_at w.x w.y w.color).getD c)
      exact ⟨htl.1.trans hstep.1, htl.2.1.trans hstep.2.1, htl.2.2.trans hstep.2.2⟩

theorem run_transaction_components (e : Editor) (ws : List PixelWrite) :
    (e.run_transaction ws).canvas = e.canvas.apply_writes ws ∧
    (e.run_transaction ws).shadow_data = e.canvas.data ∧
    (e.run_transaction ws).history.diffs =
      e.history.diffs.take e.history.cursor ++
        [Diff.Sparse (compareDeltas (e.canvas.apply_writes ws).area
          (e.canvas.apply_writes ws).data e.canvas.data)] ∧
    (e.run_transaction ws).history.cursor = e.history.cursor + 1 ∧
    (e.run_transaction ws).in_transaction = false ∧
    (e.run_transaction ws).scale = e.scale ∧
    (e.run_transaction ws).center = e.center :=
  ⟨rfl, rfl, rfl, rfl, rfl, rfl, rfl⟩

theorem undo_step (e : Editor) (hin : e.in_transaction = false)
    (hc : e.history.cursor ≠ 0) :
    e.undo_state =
      { e with
          canvas := e.canvas.apply_diff
            (e.history.diffs.getD (e.history.cursor - 1) (Diff.Sparse [])) .Reverse,
          history := ⟨e.history.diffs, e.history.cursor - 1⟩ } := by
  simp [Editor.undo_state, Editor.undo, History.undo, hin, hc]

theorem redo_step (e : Editor) (hin : e.in_transaction = false)
    (d : Diff) (hd : e.history.diffs[e.history.cursor]? = some d) :
    e.redo_state =
      { e with
          canvas := e.canvas.apply_diff d .Normal,
          history := ⟨e.history.diffs, e.history.cursor + 1⟩ } := by
  simp [Editor.redo_state, Editor.redo, History.redo, hin, hd]

theorem editor_eq_of_fields {base : Editor} {c1 c2 : Canvas} {h1 h2 : History}
    (hc : c1 = c2) (hh : h1 = h2) :
    ({ base with canvas := c1, history := h1 } : Editor) =
      { base with canvas := c2, history := h2 } := by
  rw [hc, hh]

/-- Invariant of a run of complete transactions, proved by induction on the
transaction list: the final state is idle, dimensions and byte length are
preserved, the history grows by one diff per transaction, `n` undos
restore the initial bytes (moving only the cursor back), and `n` redos
after that restore the final state exactly. -/
theorem editor_roundtrip_aux : ∀ (ts : List (List PixelWrite)) (e ef : Editor),
    ef = ts.foldl Editor.run_transaction e →
    e.in_transaction = false →
    e.history.cursor ≤ e.history.diffs.length →
    e.canvas.data.length = e.canvas.area * 4 →
    ef.in_transaction = false ∧
    ef.canvas.width = e.canvas.width ∧
    ef.canvas.height = e.canvas.height ∧
    ef.canvas.data.length = e.canvas.data.length ∧
    ef.history.cursor = e.history.cursor + ts.length ∧
    ef.history.cursor ≤ ef.history.diffs.length ∧
    (∀ i, i < e.history.cursor → ef.history.diffs[i]? = e.history.diffs[i]?) ∧
    undoN ts.length ef =
      { ef with canvas := { ef.canvas with data := e.canvas.data },
                history := { ef.history with cursor := e.history.cursor } } ∧
    redoN ts.length (undoN ts.length ef) = ef := by
  intro ts
  induction ts with
  | nil =>
      intro e ef hef hin hcur hlen
      subst hef
      exact ⟨hin, rfl, rfl, rfl, by simp, hcur, fun i _ => rfl, rfl, rfl⟩
  | cons ws tl ih =>
      intro e ef hef hin hcur hlen
      have hef2 : ef = tl.foldl Editor.run_transaction (e.run_transaction ws) := hef
      have hdims := apply_writes_dims e.canvas ws
      have harea : (e.canvas.apply_writes ws).area = e.canvas.area := by
        simp [Canvas.area, hdims.1, hdims.2.1]
      obtain ⟨hc1, hs1, hd1, hcur1, hit1, hsc1, hce1⟩ := run_transaction_components e ws
      have h1w : (e.run_transaction ws).canvas.width = e.canvas.width := by
        rw [hc1]; exact hdims.1
      have h1h : (e.run_transaction ws).canvas.height = e.canvas.height := by
        rw [hc1]; exact hdims.2.1
      have htk : (e.history.diffs.take e.history.cursor).length = e.history.cursor := by
        rw [List.length_take]; omega
      have h1dlen : (e.run_transaction ws).history.diffs.length = e.history.cursor + 1 := by
        rw [hd1]
        simp only [List.length_append, List.length_cons, List.length_nil, htk]
      have h1clen : (e.run_transaction ws).canvas.data.length = e.canvas.data.length := by
        rw [hc1]; exact hdims.2.2
      have h1area : (e.run_transaction ws).canvas.area = e.canvas.area := by
        rw [hc1]; exact harea
      obtain ⟨ih1, ih2, ih3, ih4, ih5, ih6, ih7, ih8, ih9⟩ :=
        ih (e.run_transaction ws) ef hef2 hit1
          (by rw [hcur1, h1dlen]) (by rw [h1clen, h1area, hlen])
      -- the diff recorded by the first transaction sits at index `e.history.cursor`
      have hD1 : ef.history.diffs[e.history.cursor]? =
          some (Diff.Sparse (compareDeltas (e.canvas.apply_writes ws).area
            (e.canvas.apply_writes ws).data e.canvas.data)) := by
        rw [ih7 e.history.cursor (by rw [hcur1]; omega), hd1,
          List.getElem?_append_right (by rw [htk]), htk, Nat.sub_self]
        rfl
      -- invertibility of that diff
      have hlenCur : (e.canvas.apply_writes ws).data.length =
          (e.canvas.apply_writes ws).area * 4 := by
        rw [hdims.2.2, harea, hlen]
      have hlenSh : e.canvas.data.length = (e.canvas.apply_writes ws).area * 4 := by
        rw [harea, hlen]
      have hrev := applyDeltas_compare_reverse (e.canvas.apply_writes ws).area
        (e.canvas.apply_writes ws).data e.canvas.data hlenCur hlenSh
      have hnor := applyDeltas_compare_normal (e.canvas.apply_writes ws).area
        (e.canvas.apply_writes ws).data e.canvas.data hlenCur hlenSh
      -- undoing all of `ws :: tl`
      have hU : undoN (ws :: tl).length ef =
          { ef with canvas := { ef.canvas with data := e.canvas.data },
                    history := { ef.history with cursor := e.history.cursor } } := by
        show Editor.undo_state^[tl.length + 1] ef = _
        rw [Function.iterate_succ_apply']
        have hmid : Editor.undo_state^[tl.length] ef = undoN tl.length ef := rfl
        rw [hmid, ih8]
        have hinU : ({ ef with
            canvas := { ef.canvas with data := (e.run_transaction ws).canvas.data },
            history := { ef.history with cursor := (e.run_transaction ws).history.cursor } } :
              Editor).in_transaction = false := ih1
        have hcU : ({ ef with
            canvas := { ef.canvas with data := (e.run_transaction ws).canvas.data },
            history := { ef.history with cursor := (e.run_transaction ws).history.cursor } } :
              Editor).history.cursor ≠ 0 := by
          show (e.run_transaction ws).history.cursor ≠ 0
          rw [hcur1]
          omega
        rw [undo_step _ hinU hcU]
        have hgd : ef.history.diffs.getD ((e.run_transaction ws).history.cursor - 1)
            (Diff.Sparse []) =
            Diff.Sparse (compareDeltas (e.canvas.apply_writes ws).area
              (e.canvas.apply_writes ws).data e.canvas.data) := by
          rw [hcur1, Nat.add_sub_cancel, List.getD_eq_getElem?_getD, hD1]
          rfl
        refine editor_eq_of_fields ?_ ?_
        · show ({ ef.canvas with data := (e.run_transaction ws).canvas.data } : Canvas).apply_diff
              (ef.history.diffs.getD ((e.run_transaction ws).history.cursor - 1)
                (Diff.Sparse [])) .Reverse =
            { ef.canvas with data := e.canvas.data }
          rw [hgd]
          show ({ ef.canvas with
              data := applyDeltas (DiffDirection.pick .Reverse)
                (e.run_transaction ws).canvas.data
                (compareDeltas (e.canvas.apply_writes ws).area
                  (e.canvas.apply_writes ws).data e.canvas.data) } : Canvas) = _
          have heq : applyDeltas (DiffDirection.pick .Reverse)
              (e.run_transaction ws).canvas.data
              (compareDeltas (e.canvas.apply_writes ws).area
                (e.canvas.apply_writes ws).data e.canvas.data) = e.canvas.data := hrev
          rw [heq]
        · show (⟨ef.history.diffs, (e.run_transaction ws).history.cursor - 1⟩ : History) = _
          rw [hcur1, Nat.add_sub_cancel]
      refine ⟨ih1, ih2.trans h1w, ih3.trans h1h, ih4.trans h1clen, ?_, ih6, ?_, hU, ?_⟩
      · rw [ih5, hcur1]
        simp only [List.length_cons]
        omega
      · intro i hi
        rw [ih7 i (by rw [hcur1]; omega), hd1, List.getElem?_append_left (by rw [htk]; omega),
          List.getElem?_take, if_pos hi]
      · -- redoing all of `ws :: tl` from the fully undone state
        rw [hU]
        show Editor.redo_state^[tl.length + 1] _ = ef
        rw [Function.iterate_succ_apply]
        have hinV : ({ ef with
              canvas := { ef.canvas with data := e.canvas.data },
              history := { ef.history with cursor := e.history.cursor } } :
              Editor).in_transaction = false := ih1
        have hdV : ({ ef with
              canvas := { ef.canvas with data := e.canvas.data },
              history := { ef.history with cursor := e.history.cursor } } :
              Editor).history.diffs[({ ef with
                canvas := { ef.canvas with data := e.canvas.data },
                history := { ef.history with cursor := e.history.cursor } } :
                Editor).history.cursor]? =
            some (Diff.Sparse (compareDeltas (e.canvas.apply_writes ws).area
              (e.canvas.apply_writes ws).data e.canvas.data)) := hD1
        have hstep : Editor.redo_state
            { ef with
              canvas := { ef.canvas with data := e.canvas.data },
              history := { ef.history with cursor := e.history.cursor } } =
            { ef with
              canvas := { ef.canvas with data := (e.run_transaction ws).canvas.data },
              history := { ef.history with cursor := (e.run_transaction ws).history.cursor } } := by
          rw [redo_step _ hinV _ hdV]
          refine editor_eq_of_fields ?_ ?_
          · show ({ ef.canvas with
                data := applyDeltas (DiffDirection.pick .Normal) e.canvas.data
                  (compareDeltas (e.canvas.apply_writes ws).area
                    (e.canvas.apply_writes ws).data e.canvas.data) } : Canvas) = _
            have heq : applyDeltas (DiffDirection.pick .Normal) e.canvas.data
                (compareDeltas (e.canvas.apply_writes ws).area
                  (e.canvas.apply_writes ws).data e.canvas.data) =
                (e.run_transaction ws).canvas.data := hnor
            rw [heq]
          · show (⟨ef.history.diffs, e.history.cursor + 1⟩ : History) = _
            rw [hcur1]
        rw [hstep, ← ih8]
        exact ih9

/-! ### Claim theorems -/

/-- C1: for any sequence of completed transactions T1..Tn (each a
`begin()`, any sequence of pixel writes, then `end()`) starting from the
Idle state, calling `Editor::undo` n times returns the pixel buffer
byte-for-byte to its state before T1, and calling `Editor::redo` n times
then returns it byte-for-byte to its state after Tn. -/
theorem undo_redo_roundtrip (e : Editor) (ts : List (List PixelWrite))
    (hin : e.in_transaction = false)
    (hcur : e.history.cursor ≤ e.history.diffs.length)
    (hlen : e.canvas.data.length = e.canvas.area * 4) :
    (undoN ts.length (ts.foldl Editor.run_transaction e)).canvas.data = e.canvas.data ∧
    (redoN ts.length (undoN ts.length (ts.foldl Editor.run_transaction e))).canvas.data =
      (ts.foldl Editor.run_transaction e).canvas.data := by
  obtain ⟨-, -, -, -, -, -, -, h8, h9⟩ :=
    editor_roundtrip_aux ts e (ts.foldl Editor.run_transaction e) rfl hin hcur hlen
  exact ⟨by rw [h8], by rw [h9]⟩

/-- Witness for C1: a 2x2 editor, two concrete transactions. -/
theorem undo_redo_roundtrip_witness :
    ((Editor.new 2 2).in_transaction = false ∧
      (Editor.new 2 2).history.cursor ≤ (Editor.new 2 2).history.diffs.length ∧
      (Editor.new 2 2).canvas.data.length = (Editor.new 2 2).canvas.area * 4) ∧
    ((undoN 2 ([[⟨0, 0, ⟨0, 0, 0, 255⟩⟩], [⟨1, 1, ⟨10, 20, 30, 255⟩⟩, ⟨0, 1, ⟨1, 2, 3, 4⟩⟩]].foldl
        Editor.run_transaction (Editor.new 2 2))).canvas.data = (Editor.new 2 2).canvas.data ∧
      (redoN 2 (undoN 2 ([[⟨0, 0, ⟨0, 0, 0, 255⟩⟩],
          [⟨1, 1, ⟨10, 20, 30, 255⟩⟩, ⟨0, 1, ⟨1, 2, 3, 4⟩⟩]].foldl
        Editor.run_transaction (Editor.new 2 2)))).canvas.data =
        ([[⟨0, 0, ⟨0, 0, 0, 255⟩⟩], [⟨1, 1, ⟨10, 20, 30, 255⟩⟩, ⟨0, 1, ⟨1, 2, 3, 4⟩⟩]].foldl
        Editor.run_transaction (Editor.new 2 2)).canvas.data) :=
  ⟨⟨rfl, by decide, by decide⟩,
    undo_redo_roundtrip (Editor.new 2 2)
      [[⟨0, 0, ⟨0, 0, 0, 255⟩⟩], [⟨1, 1, ⟨10, 20, 30, 255⟩⟩, ⟨0, 1, ⟨1, 2, 3, 4⟩⟩]]
      rfl (by decide) (by decide)⟩

/-- C3: recording after one or more undos (`cursor < diffs.len()`)
truncates the stored diffs to length `cursor`, appends the new diff and
increments the cursor; afterwards `redo()` returns `None` (and leaves the
state unchanged) until further diffs are recorded. -/
theorem record_truncates_and_disables_redo (h : History) (d : Diff)
    (hc : h.cursor < h.diffs.length) :
    (h.record d).diffs = h.diffs.take h.cursor ++ [d] ∧
    (h.record d).diffs.length = h.cursor + 1 ∧
    (h.record d).cursor = h.cursor + 1 ∧
    ((h.record d).redo).1 = none ∧
    ((h.record d).redo).2 = h.record d := by
  have hlen : (h.record d).diffs.length = h.cursor + 1 := by
    show (h.diffs.take h.cursor ++ [d]).length = h.cursor + 1
    simp only [List.length_append, List.length_cons, List.length_nil, List.length_take]
    omega
  have hnone : (h.record d).diffs[(h.record d).cursor]? = none :=
    List.getElem?_eq_none (by rw [hlen]; exact Nat.le_refl _)
  refine ⟨rfl, hlen, rfl, ?_, ?_⟩
  · simp [History.redo, hnone]
  · simp [History.redo, hnone]

/-- Witness for C3. -/
theorem record_truncates_and_disables_redo_witness :
    ((⟨[Diff.Sparse []], 0⟩ : History).cursor < (⟨[Diff.Sparse []], 0⟩ : History).diffs.length) ∧
    (((⟨[Diff.Sparse []], 0⟩ : History).record
        (Diff.Sparse [⟨0, ⟨1, 1, 1, 1⟩, ⟨2, 2, 2, 2⟩⟩])).diffs =
      [Diff.Sparse [⟨0, ⟨1, 1, 1, 1⟩, ⟨2, 2, 2, 2⟩⟩]] ∧
      (((⟨[Diff.Sparse []], 0⟩ : History).record
        (Diff.Sparse [⟨0, ⟨1, 1, 1, 1⟩, ⟨2, 2, 2, 2⟩⟩])).redo).1 = none) :=
  ⟨by decide,
    (record_truncates_and_disables_redo ⟨[Diff.Sparse []], 0⟩
      (Diff.Sparse [⟨0, ⟨1, 1, 1, 1⟩, ⟨2, 2, 2, 2⟩⟩]) (by decide)).1,
    (record_truncates_and_disables_redo ⟨[Diff.Sparse []], 0⟩
      (Diff.Sparse [⟨0, ⟨1, 1, 1, 1⟩, ⟨2, 2, 2, 2⟩⟩]) (by decide)).2.2.2.1⟩

/-- C10: whenever `Editor::undo` or `Editor::redo` returns an error
(`TransactionInProgress` or `AlreadyAtTimeEdge`), the whole editor state
-- in particular the pixel buffer and the history (diffs and cursor) --
is left completely unchanged. -/
theorem undo_redo_error_atomic (e : Editor) (err : TimeMachineError) :
    ((e.undo).1 = .error err → (e.undo).2 = e) ∧
    ((e.redo).1 = .error err → (e.redo).2 = e) := by
  constructor
  · intro hres
    by_cases hin : e.in_transaction
    · simp [Editor.undo, hin]
    · rcases hc : e.history.cursor with _ | n
      · have hh : e.history.undo = (none, e.history) := by
          simp [History.undo, hc]
        calc (Editor.undo e).2 = { e with history := e.history } := by
              simp [Editor.undo, hin, hh]
          _ = e := rfl
      · have hh : e.history.undo =
            (some (e.history.diffs.getD n (Diff.Sparse [])), ⟨e.history.diffs, n⟩) := by
          simp [History.undo, hc]
        simp [Editor.undo, hin, hh] at hres
  · intro hres
    by_cases hin : e.in_transaction
    · simp [Editor.redo, hin]
    · rcases hd : e.history.diffs[e.history.cursor]? with _ | d
      · have hh : e.history.redo = (none, e.history) := by
          simp [History.redo, hd]
        calc (Editor.redo e).2 = { e with history := e.history } := by
              simp [Editor.redo, hin, hh]
          _ = e := rfl
      · have hh : e.history.redo = (some d, ⟨e.history.diffs, e.history.cursor + 1⟩) := by
          simp [History.redo, hd]
        simp [Editor.redo, hin, hh] at hres

/-- Witness for C10: on a fresh editor `undo` and `redo` fail with
`AlreadyAtTimeEdge` and change nothing. -/
theorem undo_redo_error_atomic_witness :
    (((Editor.new 2 2).undo).1 = .error .AlreadyAtTimeEdge ∧
      ((Editor.new 2 2).undo).2 = Editor.new 2 2) ∧
    (((Editor.new 2 2).redo).1 = .error .AlreadyAtTimeEdge ∧
      ((Editor.new 2 2).redo).2 = Editor.new 2 2) :=
  ⟨⟨rfl, (undo_redo_error_atomic (Editor.new 2 2) .AlreadyAtTimeEdge).1 rfl⟩,
    ⟨rfl, (undo_redo_error_atomic (Editor.new 2 2) .AlreadyAtTimeEdge).2 rfl⟩⟩

theorem pixel_offset_lt (w h x y : ℕ) (hx : x < w) (hy : y < h) : y * w + x < w * h := by
  have h1 : (y + 1) * w = y * w + w := by ring
  have h2 : (y + 1) * w ≤ h * w := Nat.mul_le_mul_right w hy
  have h3 : h * w = w * h := Nat.mul_comm h w
  omega

/-- C2: `try_get_at`/`try_set_at` return `None` exactly when
`x >= width || y >= height`; on in-bounds coordinates they read/write
exactly the 4 bytes at offset `(y*width + x)*4` (all other bytes
untouched), and that byte range lies inside the buffer, so the slicing
they perform cannot panic. -/
theorem try_accessors_contract (c : Canvas) (x y : ℕ) (color : Color)
    (hinv : c.data.length = c.area * 4) :
    (c.try_get_at x y = none ↔ (c.width ≤ x ∨ c.height ≤ y)) ∧
    (c.try_set_at x y color = none ↔ (c.width ≤ x ∨ c.height ≤ y)) ∧
    (x < c.width → y < c.height →
      (y * c.width + x) * 4 + 4 ≤ c.data.length ∧
      c.try_get_at x y = some
        { b := c.data.getD ((y * c.width + x) * 4) 0,
          g := c.data.getD ((y * c.width + x) * 4 + 1) 0,
          r := c.data.getD ((y * c.width + x) * 4 + 2) 0,
          a := c.data.getD ((y * c.width + x) * 4 + 3) 0 } ∧
      (∃ c2, c.try_set_at x y color = some c2 ∧
        c2.width = c.width ∧ c2.height = c.height ∧ c2.data.length = c.data.length ∧
        c2.data[(y * c.width + x) * 4]? = some color.b ∧
        c2.data[(y * c.width + x) * 4 + 1]? = some color.g ∧
        c2.data[(y * c.width + x) * 4 + 2]? = some color.r ∧
        c2.data[(y * c.width + x) * 4 + 3]? = some color.a ∧
        ∀ j, j < (y * c.width + x) * 4 ∨ (y * c.width + x) * 4 + 4 ≤ j →
          c2.data[j]? = c.data[j]?)) := by
  refine ⟨?_, ?_, ?_⟩
  · simp only [Canvas.try_get_at, Canvas.calc_offset]
    split_ifs with hc
    · simpa using hc
    · simp only [Option.map_some', reduceCtorEq, false_iff]
      omega
  · simp only [Canvas.try_set_at, Canvas.calc_offset]
    split_ifs with hc
    · simpa using hc
    · simp only [Option.map_some', reduceCtorEq, false_iff]
      omega
  · intro hx hy
    have hoff : (y * c.width + x) * 4 + 4 ≤ c.data.length := by
      have h1 := pixel_offset_lt c.width c.height x y hx hy
      have h2 : (y * c.width + x) * 4 + 4 ≤ c.width * c.height * 4 := by omega
      rw [hinv]
      exact h2
    have hcalc : c.calc_offset x y = some ((y * c.width + x) * 4) := by
      rw [Canvas.calc_offset, if_neg (by omega)]
    refine ⟨hoff, ?_, ?_⟩
    · rw [Canvas.try_get_at, hcalc, Option.map_some', color_from_slice_slice4]
    · refine ⟨{ c with data := Canvas.color_to_slice color c.data ((y * c.width + x) * 4) },
        ?_, rfl, rfl, length_color_to_slice _ _ _, ?_, ?_, ?_, ?_, ?_⟩
      · rw [Canvas.try_set_at, hcalc, Option.map_some']
      · show (Canvas.color_to_slice color c.data
            ((y * c.width + x) * 4))[(y * c.width + x) * 4]? = some color.b
        rw [getElem?_color_to_slice _ _ _ _ hoff, if_pos rfl]
      · show (Canvas.color_to_slice color c.data
            ((y * c.width + x) * 4))[(y * c.width + x) * 4 + 1]? = some color.g
        rw [getElem?_color_to_slice _ _ _ _ hoff, if_neg (by omega), if_pos rfl]
      · show (Canvas.color_to_slice color c.data
            ((y * c.width + x) * 4))[(y * c.width + x) * 4 + 2]? = some color.r
        rw [getElem?_color_to_slice _ _ _ _ hoff, if_neg (by omega), if_neg (by omega),
          if_pos rfl]
      · show (Canvas.color_to_slice color c.data
            ((y * c.width + x) * 4))[(y * c.width + x) * 4 + 3]? = some color.a
        rw [getElem?_color_to_slice _ _ _ _ hoff, if_neg (by omega), if_neg (by omega),
          if_neg (by omega), if_pos rfl]
      · intro j hj
        show (Canvas.color_to_slice color c.data
            ((y * c.width + x) * 4))[j]? = c.data[j]?
        rw [getElem?_color_to_slice_of_ne _ _ _ _ hj]

/-- Witness for C2: a 2x3 canvas, coordinate (1, 2), plus the out-of-bounds
check applied at a concrete point. -/
theorem try_accessors_contract_witness :
    ((Canvas.new 2 3).data.length = (Canvas.new 2 3).area * 4) ∧
    ((Canvas.new 2 3).try_get_at 2 0 = none ↔
      ((Canvas.new 2 3).width ≤ 2 ∨ (Canvas.new 2 3).height ≤ 0)) ∧
    (1 < (Canvas.new 2 3).width → 2 < (Canvas.new 2 3).height →
      (2 * (Canvas.new 2 3).width + 1) * 4 + 4 ≤ (Canvas.new 2 3).data.length ∧
      (Canvas.new 2 3).try_get_at 1 2 = some
        { b := (Canvas.new 2 3).data.getD ((2 * (Canvas.new 2 3).width + 1) * 4) 0,
          g := (Canvas.new 2 3).data.getD ((2 * (Canvas.new 2 3).width + 1) * 4 + 1) 0,
          r := (Canvas.new 2 3).data.getD ((2 * (Canvas.new 2 3).width + 1) * 4 + 2) 0,
          a := (Canvas.new 2 3).data.getD ((2 * (Canvas.new 2 3).width + 1) * 4 + 3) 0 } ∧
      (∃ c2, (Canvas.new 2 3).try_set_at 1 2 ⟨9, 8, 7, 6⟩ = some c2 ∧
        c2.width = (Canvas.new 2 3).width ∧ c2.height = (Canvas.new 2 3).height ∧
        c2.data.length = (Canvas.new 2 3).data.length ∧
        c2.data[(2 * (Canvas.new 2 3).width + 1) * 4]? = some ((⟨9, 8, 7, 6⟩ : Color).b) ∧
        c2.data[(2 * (Canvas.new 2 3).width + 1) * 4 + 1]? = some ((⟨9, 8, 7, 6⟩ : Color).g) ∧
        c2.data[(2 * (Canvas.new 2 3).width + 1) * 4 + 2]? = some ((⟨9, 8, 7, 6⟩ : Color).r) ∧
        c2.data[(2 * (Canvas.new 2 3).width + 1) * 4 + 3]? = some ((⟨9, 8, 7, 6⟩ : Color).a) ∧
        ∀ j, j < (2 * (Canvas.new 2 3).width + 1) * 4 ∨
            (2 * (Canvas.new 2 3).width + 1) * 4 + 4 ≤ j →
          c2.data[j]? = (Canvas.new 2 3).data[j]?)) :=
  ⟨by decide,
    (try_accessors_contract (Canvas.new 2 3) 2 0 ⟨9, 8, 7, 6⟩ (by decide)).1,
    (try_accessors_contract (Canvas.new 2 3) 1 2 ⟨9, 8, 7, 6⟩ (by decide)).2.2⟩

/-- C6: in bounds, setting a pixel to a color and then reading that pixel
returns exactly that color (all four channels byte-identical), with the
pixel stored in byte order blue, green, red, alpha. -/
theorem set_get_roundtrip (c : Canvas) (x y : ℕ) (color : Color)
    (hx : x < c.width) (hy : y < c.height)
    (hinv : c.data.length = c.area * 4) :
    ∃ c2, c.try_set_at x y color = some c2 ∧
      c2.try_get_at x y = some color ∧
      c2.data[(y * c.width + x) * 4]? = some color.b ∧
      c2.data[(y * c.width + x) * 4 + 1]? = some color.g ∧
      c2.data[(y * c.width + x) * 4 + 2]? = some color.r ∧
      c2.data[(y * c.width + x) * 4 + 3]? = some color.a := by
  obtain ⟨-, -, c2, hset, hw, hh, hlen, hb, hg, hr, ha, -⟩ :=
    (try_accessors_contract c x y color hinv).2.2 hx hy
  refine ⟨c2, hset, ?_, hb, hg, hr, ha⟩
  have hcalc : c2.calc_offset x y = some ((y * c.width + x) * 4) := by
    rw [Canvas.calc_offset, hw, hh, if_neg (by omega)]
  rw [Canvas.try_get_at, hcalc, Option.map_some', color_from_slice_slice4]
  have eb : c2.data.getD ((y * c.width + x) * 4) 0 = color.b := by
    rw [List.getD_eq_getElem?_getD, hb]
    rfl
  have eg : c2.data.getD ((y * c.width + x) * 4 + 1) 0 = color.g := by
    rw [List.getD_eq_getElem?_getD, hg]
    rfl
  have er : c2.data.getD ((y * c.width + x) * 4 + 2) 0 = color.r := by
    rw [List.getD_eq_getElem?_getD, hr]
    rfl
  have ea : c2.data.getD ((y * c.width + x) * 4 + 3) 0 = color.a := by
    rw [List.getD_eq_getElem?_getD, ha]
    rfl
  rw [eb, eg, er, ea]

/-- Witness for C6: canvas 2x3, pixel (0, 1), color (1, 2, 3, 4). -/
theorem set_get_roundtrip_witness :
    (0 < (Canvas.new 2 3).width ∧ 1 < (Canvas.new 2 3).height ∧
      (Canvas.new 2 3).data.length = (Canvas.new 2 3).area * 4) ∧
    (∃ c2, (Canvas.new 2 3).try_set_at 0 1 ⟨1, 2, 3, 4⟩ = some c2 ∧
      c2.try_get_at 0 1 = some ⟨1, 2, 3, 4⟩ ∧
      c2.data[(1 * (Canvas.new 2 3).width + 0) * 4]? = some ((⟨1, 2, 3, 4⟩ : Color).b) ∧
      c2.data[(1 * (Canvas.new 2 3).width + 0) * 4 + 1]? = some ((⟨1, 2, 3, 4⟩ : Color).g) ∧
      c2.data[(1 * (Canvas.new 2 3).width + 0) * 4 + 2]? = some ((⟨1, 2, 3, 4⟩ : Color).r) ∧
      c2.data[(1 * (Canvas.new 2 3).width + 0) * 4 + 3]? = some ((⟨1, 2, 3, 4⟩ : Color).a)) :=
  ⟨⟨by decide, by decide, by decide⟩,
    set_get_roundtrip (Canvas.new 2 3) 0 1 ⟨1, 2, 3, 4⟩ (by decide) (by decide) (by decide)⟩

/-- C9: `compare_shadow_data` on a shadow of the same length returns a
`Sparse` diff whose deltas are in strictly ascending index order with
every index below `width*height`; consequently `apply_diff` of such a
diff, in either direction, touches only in-bounds byte ranges (so the
slicing cannot panic), preserves the buffer length and leaves every byte
outside the touched ranges unchanged. -/
theorem compare_diff_wellformed (c : Canvas) (shadow : List ℕ)
    (deltas : List SparsePixelDelta)
    (hs : shadow.length = c.data.length)
    (hinv : c.data.length = c.area * 4)
    (hcmp : c.compare_shadow_data shadow = Diff.Sparse deltas) :
    deltas.Pairwise (fun d1 d2 => d1.index < d2.index) ∧
    (∀ delta ∈ deltas, delta.index < c.area) ∧
    (∀ delta ∈ deltas,
      delta.index * 4 + 4 ≤ c.data.length ∧ delta.index * 4 + 4 ≤ shadow.length) ∧
    (∀ direction,
      (c.apply_diff (c.compare_shadow_data shadow) direction).data.length = c.data.length) ∧
    (∀ direction j, (∀ delta ∈ deltas, j < delta.index * 4 ∨ delta.index * 4 + 4 ≤ j) →
      (c.apply_diff (c.compare_shadow_data shadow) direction).data[j]? = c.data[j]?) := by
  have hdel : deltas = compareDeltas c.area c.data shadow := by
    have := hcmp.symm
    rw [Canvas.compare_shadow_data] at this
    injection this
  subst hdel
  refine ⟨compareDeltas_pairwise _ _ _, fun delta hd => compareDeltas_index_lt _ _ _ _ hd,
    ?_, ?_, ?_⟩
  · intro delta hd
    have := compareDeltas_index_lt _ _ _ _ hd
    constructor <;> omega
  · intro direction
    show (applyDeltas direction.pick c.data (compareDeltas c.area c.data shadow)).length = _
    exact length_applyDeltas _ _ _
  · intro direction j hj
    show (applyDeltas direction.pick c.data (compareDeltas c.area c.data shadow))[j]? = _
    exact applyDeltas_getElem?_notmem _ _ _ _ hj

/-- Witness for C9: a 1x2 canvas with one changed pixel. -/
theorem compare_diff_wellformed_witness :
    (([255, 255, 255, 255, 9, 9, 9, 255] : List ℕ).length =
        (Canvas.new 1 2).data.length ∧
      (Canvas.new 1 2).data.length = (Canvas.new 1 2).area * 4 ∧
      (Canvas.new 1 2).compare_shadow_data [255, 255, 255, 255, 9, 9, 9, 255] =
        Diff.Sparse [⟨1, ⟨9, 9, 9, 255⟩, ⟨255, 255, 255, 255⟩⟩]) ∧
    (([⟨1, ⟨9, 9, 9, 255⟩, ⟨255, 255, 255, 255⟩⟩] :
        List SparsePixelDelta).Pairwise (fun d1 d2 => d1.index < d2.index) ∧
      (∀ delta ∈ ([⟨1, ⟨9, 9, 9, 255⟩, ⟨255, 255, 255, 255⟩⟩] : List SparsePixelDelta),
        delta.index < (Canvas.new 1 2).area)) :=
  ⟨⟨by decide, by decide, by decide⟩,
    (compare_diff_wellformed (Canvas.new 1 2) [255, 255, 255, 255, 9, 9, 9, 255]
      [⟨1, ⟨9, 9, 9, 255⟩, ⟨255, 255, 255, 255⟩⟩]
      (by decide) (by decide) (by decide)).1,
    (compare_diff_wellformed (Canvas.new 1 2) [255, 255, 255, 255, 9, 9, 9, 255]
      [⟨1, ⟨9, 9, 9, 255⟩, ⟨255, 255, 255, 255⟩⟩]
      (by decide) (by decide) (by decide)).2.1⟩

/-- A reachable editor state over a 4-wide, 8-tall canvas with the center
at (2, 6) (e.g. obtained from the initial center (2, 4) by an anchored
zoom step); used to exercise `Editor::scroll`. -/
def scrollDemoEditor : Editor :=
  { canvas := Canvas.new 4 8
    shadow_data := (Canvas.new 4 8).create_shadow_data
    history := History.new
    in_transaction := false
    scale := Scale.Times 1
    center := ⟨2, 6⟩ }

/-- C4 (code bug): `Editor::scroll` reads `self.canvas.width()` for BOTH
clamp limits, so on a 4x8 canvas scrolling the center (2, 6) by (0, 10)
clamps y to the width 4 and yields (2, 4), not the (2, 8) that clamping
into `[0, canvas height]` would give. -/
theorem scroll_clamps_y_to_width :
    (scrollDemoEditor.scroll 0 10).center = ⟨2, 4⟩ ∧
    (scrollDemoEditor.scroll 0 10).center ≠ ⟨2, 8⟩ := by
  have h : (scrollDemoEditor.scroll 0 10).center = ⟨2, 4⟩ := by
    show Point.mk (min (max ((2 : ℚ) + 0) 0) ((4 : ℕ) : ℚ))
        (min (max ((6 : ℚ) + 10) 0) ((4 : ℕ) : ℚ)) = ⟨2, 4⟩
    norm_num [max_def, min_def]
  refine ⟨h, ?_⟩
  rw [h]
  intro hcontra
  have := congrArg Point.y hcontra
  norm_num at this

/-- A zero-length thick line: both endpoints (1, 1), thickness 2. -/
def degenerateLine : HardLine := ⟨⟨1, 1⟩, ⟨1, 1⟩, 2⟩

/-- C5 (code bug): on a zero-length segment with nonzero thickness the
normal has length 0, so `assert!(scale.abs() > 1e-9)` in
`HardLine::scanline_points` fails and `HardLine::draw` panics before
producing any pixel -- there is no fallback policy. -/
theorem draw_degenerate_line_asserts :
    degenerateLine.scanline_points = .error "assertion failed: scale.abs() > 1e-9" ∧
    degenerateLine.draw 8 = .error "assertion failed: scale.abs() > 1e-9" := by
  have h : degenerateLine.scanline_points =
      .error "assertion failed: scale.abs() > 1e-9" := by
    norm_num [HardLine.scanline_points, degenerateLine, ratSqrt, natSqrt, natSqrtAux]
  exact ⟨h, by rw [HardLine.draw, h]⟩

/-- A thick line lying entirely at negative y: from (0, -5) to (0, -3)
with thickness 1. -/
def negativeLine : HardLine := ⟨⟨0, -5⟩, ⟨0, -3⟩, 1⟩

/-- C8 (code bug): the rasterizer does not skip pixels at negative canvas
coordinates.  Drawing the vertical segment (0,-5)-(0,-3) of thickness 1
invokes `put_pixel` twice, with the negative rows -5 and -4 wrapped by the
`y as u32` cast to 4294967291 and 4294967292 (and the negative left edge
saturated to x = 0): negative pixels are remapped, not skipped. -/
theorem draw_remaps_negative_pixels :
    negativeLine.draw 8 = .ok [(0, 4294967291), (0, 4294967292)] ∧
    u32_of_i64 (-5) = 4294967291 ∧ u32_of_i64 (-4) = 4294967292 := by
  have ht4 : (4 : ℤ).toNat = 4 := rfl
  have htA : (4294967291 : ℤ).toNat = 4294967291 := rfl
  have htB : (4294967292 : ℤ).toNat = 4294967292 := rfl
  have hsp : negativeLine.scanline_points =
      .ok (⟨1 / 2, -5⟩, ⟨-(1 / 2), -5⟩, ⟨1 / 2, -3⟩, ⟨-(1 / 2), -3⟩) := by
    norm_num [HardLine.scanline_points, negativeLine, ratSqrt, natSqrt, natSqrtAux,
      sortByY, insertByY, ht4]
  have h1 : drawLoop1 ⟨1 / 2, -5⟩ ⟨-(1 / 2), -5⟩ ⟨1 / 2, -3⟩ 8 (-5) = ([], -5) := by
    rw [drawLoop1]
    norm_num
  have h2 : drawLoop2 ⟨1 / 2, -5⟩ ⟨-(1 / 2), -5⟩ ⟨1 / 2, -3⟩ 8 (-5) =
      ([(0, 4294967291), (0, 4294967292)], -3) := by
    norm_num [drawLoop2, sort2, roundRust, u32_of_f64, u32_of_i64, u32RangeExcl,
      List.range', htA, htB]
  have h3 : drawLoop3 ⟨-(1 / 2), -5⟩ ⟨1 / 2, -3⟩ ⟨-(1 / 2), -3⟩ 8 (-3) = [] := by
    rw [drawLoop3]
    norm_num
  refine ⟨?_, by decide, by decide⟩
  rw [HardLine.draw, hsp]
  norm_num [h1, h2, h3]

/-- A fresh editor over a 4x4 canvas, center (2, 2), scale 1x. -/
def zoomDemoEditor : Editor :=
  { canvas := Canvas.new 4 4
    shadow_data := (Canvas.new 4 4).create_shadow_data
    history := History.new
    in_transaction := false
    scale := Scale.Times 1
    center := ⟨2, 2⟩ }

/-- C7 counterexample: with the stationary point (100, 0) far outside the
canvas, `scale_up` then `scale_down` returns to scale 1x but moves the
center from (2, 2) to (0, 2): the clamping of the intermediate center
breaks the round trip, so the claim fails for arbitrary stationary
points. -/
theorem scale_roundtrip_loses_center :
    ((zoomDemoEditor.scale_up ⟨100, 0⟩).2.scale_down ⟨100, 0⟩).2.scale =
      zoomDemoEditor.scale ∧
    ((zoomDemoEditor.scale_up ⟨100, 0⟩).2.scale_down ⟨100, 0⟩).2.center = ⟨0, 2⟩ ∧
    ((zoomDemoEditor.scale_up ⟨100, 0⟩).2.scale_down ⟨100, 0⟩).2.center ≠
      zoomDemoEditor.center := by
  have h1 : (zoomDemoEditor.scale_up ⟨100, 0⟩).2 =
      { zoomDemoEditor with scale := Scale.Times 2, center := ⟨4, 1⟩ } := by
    norm_num [Editor.scale_up, Editor.recalc_scale_up, Editor.rescale, Scale.apply,
      Scale.unapply, Point.zipmap, zoomDemoEditor, Canvas.new, max_def, min_def,
      Editor.mk.injEq, Point.mk.injEq]
  have h2 : (({ zoomDemoEditor with scale := Scale.Times 2, center := ⟨4, 1⟩ } :
      Editor).scale_down ⟨100, 0⟩).2 =
      { zoomDemoEditor with scale := Scale.Times 1, center := ⟨0, 2⟩ } := by
    norm_num [Editor.scale_down, Editor.recalc_scale_down, Editor.rescale, Scale.apply,
      Scale.unapply, Point.zipmap, zoomDemoEditor, Canvas.new, max_def, min_def,
      Editor.mk.injEq, Point.mk.injEq]
  rw [h1, h2]
  refine ⟨rfl, rfl, ?_⟩
  intro hcontra
  have hx := congrArg Point.x hcontra
  norm_num [zoomDemoEditor] at hx

theorem point_eq_of_coords {p q : Point} (hx : p.x = q.x) (hy : p.y = q.y) : p = q := by
  cases p
  cases q
  simp_all

theorem rescale_axis_up (p c w k : ℚ) (hk : 0 ≤ k) (hp1 : 0 ≤ p) (hp2 : p ≤ w)
    (hc1 : 0 ≤ c) (hc2 : c ≤ w) :
    min (max (p - (p - c) / (k + 2) * (k + 1)) 0) w = (p + (k + 1) * c) / (k + 2) := by
  have hpos : (0 : ℚ) < k + 2 := by linarith
  have hX : p - (p - c) / (k + 2) * (k + 1) = (p + (k + 1) * c) / (k + 2) := by
    field_simp
    ring
  have h0 : (0 : ℚ) ≤ (p + (k + 1) * c) / (k + 2) := by
    apply div_nonneg _ (le_of_lt hpos)
    nlinarith
  have hw : (p + (k + 1) * c) / (k + 2) ≤ w := by
    rw [div_le_iff₀ hpos]
    nlinarith
  rw [hX, max_eq_left h0, min_eq_left hw]

theorem rescale_axis_down (p c w k : ℚ) (hk : 0 ≤ k) (hc1 : 0 ≤ c) (hc2 : c ≤ w) :
    min (max (p - (p - (p + (k + 1) * c) / (k + 2)) / (k + 1) * (k + 2)) 0) w = c := by
  have hpos1 : (0 : ℚ) < k + 1 := by linarith
  have hpos2 : (0 : ℚ) < k + 2 := by linarith
  have hX : p - (p - (p + (k + 1) * c) / (k + 2)) / (k + 1) * (k + 2) = c := by
    field_simp
    ring
  rw [hX, max_eq_left hc1, min_eq_left hc2]

/-- C7 (amended): `scale_down` at `Times(1)` returns "no change" and
leaves the whole editor (in particular scale and center) unmodified; and
for every starting scale `Times(n)` with `n >= 1`, whenever the
stationary point and the current center both lie inside
`[0, width] x [0, height]`, `scale_up(p)` followed by `scale_down(p)`
returns to the original scale and restores the original center exactly
(in the exact-rational model of the `f64` arithmetic).  The original
claim, quantified over arbitrary stationary points, fails because the
per-axis clamping of the intermediate center is not invertible for
far-away stationary points. -/
theorem scale_invariants_amended :
    (∀ (e : Editor) (p : Point), e.scale = Scale.Times 1 →
      (e.scale_down p).1 = none ∧ (e.scale_down p).2 = e) ∧
    (∀ (e : Editor) (p : Point) (n : ℕ), e.scale = Scale.Times n → 1 ≤ n →
      0 ≤ p.x → p.x ≤ (e.canvas.width : ℚ) → 0 ≤ p.y → p.y ≤ (e.canvas.height : ℚ) →
      0 ≤ e.center.x → e.center.x ≤ (e.canvas.width : ℚ) →
      0 ≤ e.center.y → e.center.y ≤ (e.canvas.height : ℚ) →
      ((e.scale_up p).2.scale_down p).2.scale = e.scale ∧
      ((e.scale_up p).2.scale_down p).2.center = e.center) := by
  constructor
  · intro e p hs1
    constructor
    · simp [Editor.scale_down, hs1, Editor.recalc_scale_down]
    · simp [Editor.scale_down, hs1, Editor.recalc_scale_down]
  · intro e p n hs hn hpx1 hpx2 hpy1 hpy2 hcx1 hcx2 hcy1 hcy2
    obtain ⟨m, rfl⟩ : ∃ m, n = m + 1 := ⟨n - 1, by omega⟩
    have hup : (e.scale_up p).2 = e.rescale (Scale.Times (m + 1 + 1)) p := by
      simp [Editor.scale_up, hs, Editor.recalc_scale_up]
    have hsc1 : (e.rescale (Scale.Times (m + 1 + 1)) p).scale = Scale.Times (m + 1 + 1) := rfl
    have hcv1 : (e.rescale (Scale.Times (m + 1 + 1)) p).canvas = e.canvas := rfl
    have hcen1x : (e.rescale (Scale.Times (m + 1 + 1)) p).center.x =
        (p.x + ((m : ℚ) + 1) * e.center.x) / ((m : ℚ) + 2) := by
      show min (max (p.x - Scale.apply e.scale
          (Scale.unapply (Scale.Times (m + 1 + 1)) (p.x - e.center.x))) 0)
          ((e.canvas.width : ℚ)) = _
      rw [hs]
      show min (max (p.x - (p.x - e.center.x) / ((m + 1 + 1 : ℕ) : ℚ) * ((m + 1 : ℕ) : ℚ)) 0)
          ((e.canvas.width : ℚ)) = _
      push_cast
      rw [show ((m : ℚ) + 1 + 1) = (m : ℚ) + 2 from by ring]
      exact rescale_axis_up p.x e.center.x _ (m : ℚ) (by positivity) hpx1 hpx2 hcx1 hcx2
    have hcen1y : (e.rescale (Scale.Times (m + 1 + 1)) p).center.y =
        (p.y + ((m : ℚ) + 1) * e.center.y) / ((m : ℚ) + 2) := by
      show min (max (p.y - Scale.apply e.scale
          (Scale.unapply (Scale.Times (m + 1 + 1)) (p.y - e.center.y))) 0)
          ((e.canvas.height : ℚ)) = _
      rw [hs]
      show min (max (p.y - (p.y - e.center.y) / ((m + 1 + 1 : ℕ) : ℚ) * ((m + 1 : ℕ) : ℚ)) 0)
          ((e.canvas.height : ℚ)) = _
      push_cast
      rw [show ((m : ℚ) + 1 + 1) = (m : ℚ) + 2 from by ring]
      exact rescale_axis_up p.y e.center.y _ (m : ℚ) (by positivity) hpy1 hpy2 hcy1 hcy2
    have hdn : ((e.rescale (Scale.Times (m + 1 + 1)) p).scale_down p).2 =
        (e.rescale (Scale.Times (m + 1 + 1)) p).rescale (Scale.Times (m + 1)) p := by
      simp [Editor.scale_down, hsc1, Editor.recalc_scale_down]
    rw [hup, hdn]
    constructor
    · show Scale.Times (m + 1) = e.scale
      rw [hs]
    · apply point_eq_of_coords
      · show min (max (p.x - Scale.apply (e.rescale (Scale.Times (m + 1 + 1)) p).scale
            (Scale.unapply (Scale.Times (m + 1))
              (p.x - (e.rescale (Scale.Times (m + 1 + 1)) p).center.x))) 0)
            (((e.rescale (Scale.Times (m + 1 + 1)) p).canvas.width : ℚ)) = e.center.x
        rw [hsc1, hcv1, hcen1x]
        show min (max (p.x - (p.x - (p.x + ((m : ℚ) + 1) * e.center.x) / ((m : ℚ) + 2)) /
            ((m + 1 : ℕ) : ℚ) * ((m + 1 + 1 : ℕ) : ℚ)) 0) ((e.canvas.width : ℚ)) = _
        push_cast
        rw [show ((m : ℚ) + 1 + 1) = (m : ℚ) + 2 from by ring]
        exact rescale_axis_down p.x e.center.x _ (m : ℚ) (by positivity) hcx1 hcx2
      · show min (max (p.y - Scale.apply (e.rescale (Scale.Times (m + 1 + 1)) p).scale
            (Scale.unapply (Scale.Times (m + 1))
              (p.y - (e.rescale (Scale.Times (m + 1 + 1)) p).center.y))) 0)
            (((e.rescale (Scale.Times (m + 1 + 1)) p).canvas.height : ℚ)) = e.center.y
        rw [hsc1, hcv1, hcen1y]
        show min (max (p.y - (p.y - (p.y + ((m : ℚ) + 1) * e.center.y) / ((m : ℚ) + 2)) /
            ((m + 1 : ℕ) : ℚ) * ((m + 1 + 1 : ℕ) : ℚ)) 0) ((e.canvas.height : ℚ)) = _
        push_cast
        rw [show ((m : ℚ) + 1 + 1) = (m : ℚ) + 2 from by ring]
        exact rescale_axis_down p.y e.center.y _ (m : ℚ) (by positivity) hcy1 hcy2

/-- Witness for the amended C7: the 4x4 editor at 1x with center (2, 2)
and the in-canvas stationary point (1, 3). -/
theorem scale_invariants_amended_witness :
    (zoomDemoEditor.scale = Scale.Times 1 ∧
      (0 : ℚ) ≤ 1 ∧ (1 : ℚ) ≤ (zoomDemoEditor.canvas.width : ℚ) ∧
      (0 : ℚ) ≤ 3 ∧ (3 : ℚ) ≤ (zoomDemoEditor.canvas.height : ℚ) ∧
      0 ≤ zoomDemoEditor.center.x ∧
      zoomDemoEditor.center.x ≤ (zoomDemoEditor.canvas.width : ℚ) ∧
      0 ≤ zoomDemoEditor.center.y ∧
      zoomDemoEditor.center.y ≤ (zoomDemoEditor.canvas.height : ℚ)) ∧
    ((zoomDemoEditor.scale_down ⟨1, 3⟩).1 = none ∧
      (zoomDemoEditor.scale_down ⟨1, 3⟩).2 = zoomDemoEditor) ∧
    (((zoomDemoEditor.scale_up ⟨1, 3⟩).2.scale_down ⟨1, 3⟩).2.scale =
        zoomDemoEditor.scale ∧
      ((zoomDemoEditor.scale_up ⟨1, 3⟩).2.scale_down ⟨1, 3⟩).2.center =
        zoomDemoEditor.center) :=
  ⟨⟨rfl, by norm_num, by norm_num [zoomDemoEditor, Canvas.new], by norm_num,
      by norm_num [zoomDemoEditor, Canvas.new], by norm_num [zoomDemoEditor],
      by norm_num [zoomDemoEditor, Canvas.new], by norm_num [zoomDemoEditor],
      by norm_num [zoomDemoEditor, Canvas.new]⟩,
    scale_invariants_amended.1 zoomDemoEditor ⟨1, 3⟩ rfl,
    scale_invariants_amended.2 zoomDemoEditor ⟨1, 3⟩ 1 rfl (by norm_num)
      (by norm_num) (by norm_num [zoomDemoEditor, Canvas.new]) (by norm_num)
      (by norm_num [zoomDemoEditor, Canvas.new]) (by norm_num [zoomDemoEditor])
      (by norm_num [zoomDemoEditor, Canvas.new]) (by norm_num [zoomDemoEditor])
      (by norm_num [zoomDemoEditor, Canvas.new])⟩
